import Mathlib

/-!
Verification of the pocketflow-go workflow core.

This file gives a shallow embedding, in Lean 4, of the core of the
repository: the `Node` unit (three-phase execution with retry, fallback
and a worker pool, package `core`, file `node.go`) and the `Flow` graph
executor (action-routed traversal, file `flow.go`), together with proofs
of the specified properties.

Modelling conventions:
- Go pointer mutation of the shared `State` is rendered as explicit state
  passing: a phase that receives `*State` returns the updated state.
- The user callback `Exec` may behave differently on successive calls for
  the same item (that is what retry is for), so it is embedded as a
  function of the item and of the attempt index: `Exec item i` is the
  outcome of the (i+1)-st invocation of `Exec` on `item`.  A pure
  processor is one whose `Exec` ignores the index.
- `executeWithRetry` is instrumented with the number of `Exec`
  invocations it performs (field `calls`); its `result`/`error` fields
  are exactly the two values returned by the Go function.
- The concurrent worker pool writes each completed item into its own
  slot of a shared results slice.  Completion order is modelled as an
  explicit schedule: a list of (position, item) pairs that is some
  permutation of the indexed prep batch, folded over the slice by
  position-indexed writes.  The single-worker branch of `Node.Run` is the
  fold over the batch in index order.
- Go `int` is embedded as `Int`; slice indices are `Nat`.
- The non-terminating `for` loop of `Flow.Run` is given explicit fuel;
  `none` marks fuel exhaustion (a run that has not yet terminated).
-/

namespace Core

/-- Actions are Go strings; equality is the only operation used. -/
abbrev Action := String

def ActionContinue : Action := "continue"

def ActionSuccess : Action := "success"

def ActionFailure : Action := "failure"

def ActionRetry : Action := "retry"

def ActionDefault : Action := "default"

/-- The `BaseNode` interface of `core`: the three-phase processor contract.
`Prep` and `Post` receive the shared state by pointer in Go and may mutate
it, hence they return the updated state here.  `Exec` is indexed by the
attempt number (see the header comment). -/
structure BaseNode (State PrepResult ExecResults Err : Type) where
  Prep : State → List PrepResult × State
  Exec : PrepResult → Nat → ExecResults × Option Err
  Post : State → List PrepResult → List ExecResults → Action × State
  ExecFallback : Err → ExecResults

/-- The `Node` struct of `core/node.go`.  The successor table
`map[Action]Workflow[State]` is embedded as a function into `Option W`,
where `W` stands for the `Workflow` interface type. -/
structure Node (State PrepResult ExecResults Err W : Type) where
  node : BaseNode State PrepResult ExecResults Err
  maxRetries : Int
  successors : Action → Option W
  routines : Int

variable {State PrepResult ExecResults Err W : Type}

/-- `createNode` from `core/node.go`: clamps a worker count below 1 to 1
(`maxRetries` is stored unclamped) and starts with an empty successor map. -/
def createNode (basenode : BaseNode State PrepResult ExecResults Err)
    (maxRetries maxRoutines : Int) : Node State PrepResult ExecResults Err W :=
  { node := basenode
    maxRetries := maxRetries
    routines := if maxRoutines < 1 then 1 else maxRoutines
    successors := fun _ => none }

/-- `NewNode` is an alias for `createNode`. -/
def NewNode (basenode : BaseNode State PrepResult ExecResults Err)
    (maxRetries maxRoutines : Int) : Node State PrepResult ExecResults Err W :=
  createNode basenode maxRetries maxRoutines

/-- Outcome of `executeWithRetry`: the two returned values of the Go
function plus the instrumented number of `Exec` invocations. -/
structure RetryOutcome (ExecResults Err : Type) where
  result : ExecResults
  error : Option Err
  calls : Nat
  deriving DecidableEq, Repr

/-- The retry loop body of `executeWithRetry`.  `fuel` is the number of
loop iterations still allowed, `c` the number of `Exec` calls already
made (which is also the next attempt index), and `r`, `err` the current
values of the Go locals `execResult` and `err`. -/
def retryGo (ex : Nat → ExecResults × Option Err) :
    Nat → Nat → ExecResults → Option Err → RetryOutcome ExecResults Err
  | 0, c, r, err => ⟨r, err, c⟩
  | fuel + 1, c, _r, _err =>
    match (ex c).2 with
    | none => ⟨(ex c).1, none, c + 1⟩
    | some e => retryGo ex fuel (c + 1) (ex c).1 (some e)

/-- `Node.executeWithRetry` from `core/node.go`: run `Exec` up to
`maxRetries + 1` times, returning on the first success; after exhaustion
return the last result and error.  The Go locals start at the zero value
of `ExecResults` and `nil`; a negative `maxRetries` means the loop body
never runs. -/
def Node.executeWithRetry [Inhabited ExecResults]
    (n : Node State PrepResult ExecResults Err W) (input : PrepResult) :
    RetryOutcome ExecResults Err :=
  retryGo (fun i => n.node.Exec input i) (n.maxRetries + 1).toNat 0 default none

/-- The value stored into slot `i` of the results slice for one prepared
item: the successful `executeWithRetry` result, or `ExecFallback` applied
to the returned (last) error. -/
def slotOutcome [Inhabited ExecResults]
    (n : Node State PrepResult ExecResults Err W) (p : PrepResult) : ExecResults :=
  match (n.executeWithRetry p).error with
  | some e => n.node.ExecFallback e
  | none => (n.executeWithRetry p).result

/-- Indexing of the prep batch from a starting position: `enumFrom s l`
pairs each element of `l` with its slice index, starting at `s`. -/
def enumFrom (s : Nat) : List PrepResult → List (Nat × PrepResult)
  | [] => []
  | p :: ps => (s, p) :: enumFrom (s + 1) ps

/-- The prep batch paired with its slice indices (the `for i, item :=
range prepRes` view of the batch). -/
def enumItems (l : List PrepResult) : List (Nat × PrepResult) :=
  enumFrom 0 l

/-- Position-indexed writes of completed items into the results slice:
each processed task `(pos, item)` stores its outcome at `pos`.  The order
of the list is the order in which items complete. -/
def writeSlots (f : PrepResult → ExecResults) (order : List (Nat × PrepResult))
    (arr : List ExecResults) : List ExecResults :=
  order.foldl (fun a t => a.set t.1 (f t.2)) arr

/-- The effective worker count of `Node.Run`: `numWorkers := n.routines`
lowered to `len(prepRes)` when it exceeds it. -/
def effectiveWorkers (routines : Int) (n : Nat) : Int :=
  if routines > (n : Int) then (n : Int) else routines

/-- `Node.Run` from `core/node.go`, parameterized by the completion
schedule `sched` of the worker pool (relevant only to the multi-worker
branch).  Prep; empty batch short-circuits to `Post`; otherwise the
single-worker branch fills the results slice in index order and the
multi-worker branch fills it in schedule order; `Post` receives the prep
batch and the results slice. -/
def Node.runWith [Inhabited ExecResults]
    (n : Node State PrepResult ExecResults Err W)
    (sched : List (Nat × PrepResult)) (state : State) : Action × State :=
  let pr := n.node.Prep state
  if pr.1.length = 0 then
    n.node.Post pr.2 pr.1 []
  else
    let numWorkers := effectiveWorkers n.routines pr.1.length
    let execResults :=
      if numWorkers = 1 then
        writeSlots (fun p => slotOutcome n p) (enumItems pr.1)
          (List.replicate pr.1.length default)
      else
        writeSlots (fun p => slotOutcome n p) sched
          (List.replicate pr.1.length default)
    n.node.Post pr.2 pr.1 execResults

/-- `Node.Run` with the index-order schedule (the canonical run). -/
def Node.Run [Inhabited ExecResults]
    (n : Node State PrepResult ExecResults Err W) (state : State) : Action × State :=
  n.runWith (enumItems (n.node.Prep state).1) state

/-- `SetMaxRetries`: stores the new retry count without clamping. -/
def Node.SetMaxRetries (n : Node State PrepResult ExecResults Err W)
    (retries : Int) : Node State PrepResult ExecResults Err W :=
  { n with maxRetries := retries }

/-- `SetMaxRoutines`: clamps a value below 1 to 1. -/
def Node.SetMaxRoutines (n : Node State PrepResult ExecResults Err W)
    (routines : Int) : Node State PrepResult ExecResults Err W :=
  { n with routines := if routines < 1 then 1 else routines }

/-- `Node.AddSuccessor`: a nil workflow is rejected; with no action
argument the edge is stored under `ActionDefault`, otherwise under the
first action given, overwriting any existing entry. -/
def Node.AddSuccessor (n : Node State PrepResult ExecResults Err W)
    (workflow : Option W) (action : List Action) :
    Node State PrepResult ExecResults Err W :=
  match workflow with
  | none => n
  | some wf =>
    match action with
    | [] => { n with successors := fun a => if a = ActionDefault then some wf else n.successors a }
    | act :: _ => { n with successors := fun a => if a = act then some wf else n.successors a }

/-- `Node.GetSuccessor`: map lookup (Go returns `nil` on a miss). -/
def Node.GetSuccessor (n : Node State PrepResult ExecResults Err W)
    (action : Action) : Option W :=
  n.successors action

/-- The `Flow` struct of `core/flow.go`: a start stage and a flow-level
successor table.  `W` stands for the `Workflow` interface type; a nil Go
reference is `none`. -/
structure Flow (W : Type) where
  startNode : Option W
  successors : Action → Option W

/-- `NewFlow`: wraps a start stage with an empty successor map. -/
def NewFlow (startNode : Option W) : Flow W :=
  { startNode := startNode, successors := fun _ => none }

/-- `Flow.GetSuccessor`: map lookup (Go returns `nil` on a miss). -/
def Flow.GetSuccessor (f : Flow W) (action : Action) : Option W :=
  f.successors action

/-- `Flow.AddSuccessor`: a nil successor is rejected; with no action the
edge is stored under `ActionSuccess` (Go appends `ActionSuccess` to the
empty variadic list), otherwise under the first action given, overwriting
any existing entry. -/
def Flow.AddSuccessor (f : Flow W) (successor : Option W)
    (action : List Action) : Flow W :=
  match successor with
  | none => f
  | some wf =>
    match action with
    | [] => { f with successors := fun a => if a = ActionSuccess then some wf else f.successors a }
    | act :: _ => { f with successors := fun a => if a = act then some wf else f.successors a }

/-- The collection of stages a flow traverses.  In Go the stages are
`Workflow` interface values reachable from each other through successor
tables (cycles included); here each stage is a numeric identifier with
its `Run` function (explicit state passing) and its own successor
table. -/
structure StageSys (State : Type) where
  runs : Nat → State → Action × State
  succ : Nat → Action → Option Nat

/-- The traversal loop of `Flow.Run`: run the current stage, look its
action up in the stage's own successor table first and in the flow's
table only on a miss, stop and return the action when both miss.  `fuel`
bounds the number of iterations; `none` is fuel exhaustion. -/
def flowLoop (sys : StageSys State) (f : Flow Nat) :
    Nat → Nat → State → Option (Action × State)
  | 0, _, _ => none
  | fuel + 1, cur, state =>
    match sys.succ cur (sys.runs cur state).1 with
    | some nxt => flowLoop sys f fuel nxt (sys.runs cur state).2
    | none =>
      match f.GetSuccessor (sys.runs cur state).1 with
      | some nxt => flowLoop sys f fuel nxt (sys.runs cur state).2
      | none => some (sys.runs cur state)

/-- `Flow.Run` from `core/flow.go`: a nil start returns `ActionFailure`
immediately; otherwise the traversal loop runs from the start stage. -/
def Flow.Run (sys : StageSys State) (f : Flow Nat) (state : State)
    (fuel : Nat) : Option (Action × State) :=
  match f.startNode with
  | none => some (ActionFailure, state)
  | some cur => flowLoop sys f fuel cur state

/-- The configuration (current stage, state) after exactly `k` successful
transitions of the traversal loop, `none` if the loop stops (or a nil
successor chain ends) before `k` transitions. -/
def flowIter (sys : StageSys State) (f : Flow Nat) :
    Nat → Nat → State → Option (Nat × State)
  | 0, cur, state => some (cur, state)
  | k + 1, cur, state =>
    match sys.succ cur (sys.runs cur state).1 with
    | some nxt => flowIter sys f k nxt (sys.runs cur state).2
    | none =>
      match f.GetSuccessor (sys.runs cur state).1 with
      | some nxt => flowIter sys f k nxt (sys.runs cur state).2
      | none => none

/-! Concrete processors and stage systems used to evaluate the theorems
on closed inputs. -/

/-- A processor with a two-item batch whose `Exec` always succeeds. -/
def exBase : BaseNode Nat Nat Nat Unit where
  Prep := fun s => ([10, 20], s)
  Exec := fun p _i => (p + 1, none)
  Post := fun s prep res => (ActionContinue, s + prep.length + res.length)
  ExecFallback := fun _ => 0

/-- A node over `exBase` with `maxRetries = 0` and two workers. -/
def exNode : Node Nat Nat Nat Unit Unit :=
  createNode exBase 0 2

/-- A processor whose `Exec` fails on the first attempt for an item and
succeeds on every later attempt. -/
def cexBase : BaseNode Nat Nat Nat Unit where
  Prep := fun s => ([5], s)
  Exec := fun p i => if i = 0 then (0, some ()) else (p, none)
  Post := fun s prep res => (ActionContinue, s + prep.length + res.length)
  ExecFallback := fun _ => 99

/-- A node over `cexBase` with `maxRetries = 1` and one worker. -/
def cexNode : Node Nat Nat Nat Unit Unit :=
  createNode cexBase 1 1

/-- A processor whose `Exec` always fails. -/
def failBase : BaseNode Nat Nat Nat Unit where
  Prep := fun s => ([5], s)
  Exec := fun _p _i => (0, some ())
  Post := fun s prep res => (ActionFailure, s + prep.length + res.length)
  ExecFallback := fun _ => 99

/-- A node over `failBase` with `maxRetries = 2` and one worker. -/
def failNode : Node Nat Nat Nat Unit Unit :=
  createNode failBase 2 1

/-- A processor that prepares an empty batch. -/
def emptyBase : BaseNode Nat Nat Nat Unit where
  Prep := fun s => ([], s + 1)
  Exec := fun p _i => (p, none)
  Post := fun s prep res => (ActionSuccess, s + prep.length + res.length)
  ExecFallback := fun _ => 0

/-- A node over `emptyBase`. -/
def emptyNode : Node Nat Nat Nat Unit Unit :=
  createNode emptyBase 3 4

/-- A node over `exBase` with a negative retry count. -/
def negNode : Node Nat Nat Nat Unit Unit :=
  createNode exBase (-1) 2

/-- A two-stage system on `Nat` states: stage 0 increments the state and
emits `"next"`, wired in its own table to stage 1; stage 1 doubles the
state and emits `"stop"`, which nothing resolves.  Default edges are
deliberately wired everywhere to exercise the no-default-fallback rule. -/
def exSys : StageSys Nat where
  runs := fun i s => if i = 0 then ("next", s + 1) else ("stop", s * 2)
  succ := fun i a =>
    if i = 0 ∧ a = "next" then some 1
    else if a = ActionDefault then some 0
    else none

/-- A flow over `exSys` starting at stage 0, with a default edge at flow
level and nothing else. -/
def exFlow : Flow Nat :=
  { startNode := some 0
    successors := fun a => if a = ActionDefault then some 0 else none }

/-- A stage system whose stage 0 resolves action `"go"` both in its own
table (to stage 1) and whose flows may resolve it too. -/
def dupSys : StageSys Nat where
  runs := fun i s => if i = 0 then ("go", s + 1) else ("stop", s * 2)
  succ := fun i a => if i = 0 ∧ a = "go" then some 1 else none

/-- A flow over `dupSys` that also resolves `"go"` (to stage 2) and has a
default edge, to show the stage-level edge and the actual action win. -/
def dupFlow : Flow Nat :=
  { startNode := some 0
    successors := fun a =>
      if a = "go" then some 2
      else if a = ActionDefault then some 0
      else none }

/-- A flow over `dupSys` that resolves `"stop"` (which stage 1 does not)
and also has a default edge, to exercise the flow-level fallback step. -/
def fallFlow : Flow Nat :=
  { startNode := some 0
    successors := fun a =>
      if a = "stop" then some 0
      else if a = ActionDefault then some 5
      else none }

/-! Helper lemmas: the results slice written by any completion schedule
that is a permutation of the indexed batch equals the in-order map. -/

theorem writeSlots_cons (f : PrepResult → ExecResults) (t : Nat × PrepResult)
    (rest : List (Nat × PrepResult)) (arr : List ExecResults) :
    writeSlots f (t :: rest) arr = writeSlots f rest (arr.set t.1 (f t.2)) := rfl

theorem writeSlots_length (f : PrepResult → ExecResults) :
    ∀ (order : List (Nat × PrepResult)) (arr : List ExecResults),
      (writeSlots f order arr).length = arr.length
  | [], _ => rfl
  | t :: rest, arr => by
    rw [writeSlots_cons, writeSlots_length f rest, List.length_set]

theorem writeSlots_getElem_not_mem (f : PrepResult → ExecResults) :
    ∀ (order : List (Nat × PrepResult)) (arr : List ExecResults) (j : Nat),
      j ∉ order.map Prod.fst → (writeSlots f order arr)[j]? = arr[j]?
  | [], _, _, _ => rfl
  | t :: rest, arr, j, hj => by
    simp only [List.map_cons, List.mem_cons, not_or] at hj
    rw [writeSlots_cons, writeSlots_getElem_not_mem f rest _ j hj.2,
      List.getElem?_set_ne (Ne.symm hj.1)]

theorem writeSlots_getElem_mem (f : PrepResult → ExecResults) :
    ∀ (order : List (Nat × PrepResult)) (arr : List ExecResults) (j : Nat)
      (p : PrepResult), (j, p) ∈ order → (order.map Prod.fst).Nodup →
      j < arr.length → (writeSlots f order arr)[j]? = some (f p)
  | [], _, _, _, hmem, _, _ => absurd hmem (List.not_mem_nil _)
  | t :: rest, arr, j, p, hmem, hnd, hj => by
    simp only [List.map_cons, List.nodup_cons] at hnd
    rw [writeSlots_cons]
    rcases List.mem_cons.mp hmem with heq | hmemr
    · have ht1 : t.1 = j := by rw [← heq]
      have ht2 : t.2 = p := by rw [← heq]
      have hout : j ∉ rest.map Prod.fst := ht1 ▸ hnd.1
      rw [writeSlots_getElem_not_mem f rest _ j hout, ht1, ht2,
        List.getElem?_set_eq_of_lt (f p) hj]
    · exact writeSlots_getElem_mem f rest _ j p hmemr hnd.2
        (by rw [List.length_set]; exact hj)

theorem enumFrom_getElem_mem :
    ∀ (l : List PrepResult) (s j : Nat) (h : j < l.length),
      (s + j, l[j]) ∈ enumFrom s l
  | p :: ps, s, 0, _ => by simp [enumFrom]
  | p :: ps, s, j + 1, h => by
    have ih := enumFrom_getElem_mem ps (s + 1) j (Nat.lt_of_succ_lt_succ h)
    have harith : s + (j + 1) = (s + 1) + j := by omega
    simp only [enumFrom, List.mem_cons]
    right
    rw [harith]
    simpa using ih

theorem enumFrom_map_fst :
    ∀ (l : List PrepResult) (s : Nat),
      (enumFrom s l).map Prod.fst = List.range' s l.length
  | [], _ => rfl
  | p :: ps, s => by
    simp only [enumFrom, List.map_cons, List.length_cons, List.range'_succ]
    rw [enumFrom_map_fst ps (s + 1)]

theorem writeSlots_perm (f : PrepResult → ExecResults) (prep : List PrepResult)
    (order : List (Nat × PrepResult)) (d : ExecResults)
    (h : order.Perm (enumItems prep)) :
    writeSlots f order (List.replicate prep.length d) = prep.map f := by
  apply List.ext_getElem?
  intro j
  by_cases hj : j < prep.length
  · have hmem : (j, prep[j]) ∈ enumItems prep := by
      have := enumFrom_getElem_mem prep 0 j hj
      simpa [enumItems] using this
    have hmem2 : (j, prep[j]) ∈ order := h.mem_iff.mpr hmem
    have hnd : (order.map Prod.fst).Nodup := by
      refine (List.Perm.nodup_iff (h.map Prod.fst)).mpr ?_
      rw [enumItems, enumFrom_map_fst]
      exact List.nodup_range' 0 prep.length
    rw [writeSlots_getElem_mem f order _ j _ hmem2 hnd
      (by rw [List.length_replicate]; exact hj)]
    rw [List.getElem?_map, List.getElem?_eq_getElem hj]
    rfl
  · have hout : j ∉ order.map Prod.fst := by
      intro hin
      have : j ∈ (enumItems prep).map Prod.fst := (h.map Prod.fst).mem_iff.mp hin
      rw [enumItems, enumFrom_map_fst] at this
      have := List.mem_range'_1.mp this
      omega
    rw [writeSlots_getElem_not_mem f order _ j hout,
      List.getElem?_eq_none (by rw [List.length_replicate]; omega),
      List.getElem?_eq_none (by rw [List.length_map]; omega)]

/-! Helper lemmas: the retry loop. -/

theorem retryGo_zero (ex : Nat → ExecResults × Option Err) (c : Nat)
    (r : ExecResults) (err : Option Err) :
    retryGo ex 0 c r err = ⟨r, err, c⟩ := rfl

theorem retryGo_succ_none (ex : Nat → ExecResults × Option Err)
    (fuel c : Nat) (r : ExecResults) (err : Option Err)
    (h : (ex c).2 = none) :
    retryGo ex (fuel + 1) c r err = ⟨(ex c).1, none, c + 1⟩ := by
  simp [retryGo, h]

theorem retryGo_succ_some (ex : Nat → ExecResults × Option Err)
    (fuel c : Nat) (r : ExecResults) (err : Option Err) (e : Err)
    (h : (ex c).2 = some e) :
    retryGo ex (fuel + 1) c r err = retryGo ex fuel (c + 1) (ex c).1 (some e) := by
  simp [retryGo, h]

theorem retryGo_calls_le (ex : Nat → ExecResults × Option Err) :
    ∀ (fuel c : Nat) (r : ExecResults) (err : Option Err),
      (retryGo ex fuel c r err).calls ≤ c + fuel
  | 0, c, r, err => by simp [retryGo_zero]
  | fuel + 1, c, r, err => by
    cases h : (ex c).2 with
    | none =>
      rw [retryGo_succ_none ex fuel c r err h]
      show c + 1 ≤ c + (fuel + 1)
      omega
    | some e =>
      rw [retryGo_succ_some ex fuel c r err e h]
      have := retryGo_calls_le ex fuel (c + 1) (ex c).1 (some e)
      omega

theorem retryGo_calls_ge (ex : Nat → ExecResults × Option Err) :
    ∀ (fuel c : Nat) (r : ExecResults) (err : Option Err),
      c ≤ (retryGo ex fuel c r err).calls
  | 0, c, r, err => by simp [retryGo_zero]
  | fuel + 1, c, r, err => by
    cases h : (ex c).2 with
    | none =>
      rw [retryGo_succ_none ex fuel c r err h]
      show c ≤ c + 1
      omega
    | some e =>
      rw [retryGo_succ_some ex fuel c r err e h]
      have := retryGo_calls_ge ex fuel (c + 1) (ex c).1 (some e)
      omega

theorem retryGo_calls_one (ex : Nat → ExecResults × Option Err)
    (fuel c : Nat) (r : ExecResults) (err : Option Err)
    (h : (ex c).2 = none) :
    (retryGo ex (fuel + 1) c r err).calls = c + 1 := by
  rw [retryGo_succ_none ex fuel c r err h]

theorem retryGo_error_iff (ex : Nat → ExecResults × Option Err) :
    ∀ (fuel c : Nat) (r : ExecResults) (err : Option Err), 1 ≤ fuel →
      ((retryGo ex fuel c r err).error ≠ none ↔
        ∀ i : Nat, c ≤ i → i < c + fuel → (ex i).2 ≠ none)
  | fuel + 1, c, r, err, _ => by
    cases h : (ex c).2 with
    | none =>
      rw [retryGo_succ_none ex fuel c r err h]
      constructor
      · intro hfalse
        exact absurd rfl hfalse
      · intro hall
        exact absurd h (hall c (Nat.le_refl c) (by omega))
    | some e =>
      rw [retryGo_succ_some ex fuel c r err e h]
      cases fuel with
      | zero =>
        rw [retryGo_zero]
        constructor
        · intro _ i hci hlt
          have : i = c := by omega
          subst this
          rw [h]
          exact Option.some_ne_none e
        · intro _
          exact Option.some_ne_none e
      | succ fuel1 =>
        rw [retryGo_error_iff ex (fuel1 + 1) (c + 1) (ex c).1 (some e) (by omega)]
        constructor
        · intro hall i hci hlt
          rcases Nat.eq_or_lt_of_le hci with heq | hlt2
          · subst heq
            rw [h]
            exact Option.some_ne_none e
          · exact hall i (by omega) (by omega)
        · intro hall i hci hlt
          exact hall i (by omega) (by omega)

theorem retryGo_error_calls (ex : Nat → ExecResults × Option Err) :
    ∀ (fuel c : Nat) (r : ExecResults) (err : Option Err), 1 ≤ fuel →
      (retryGo ex fuel c r err).error ≠ none →
      (retryGo ex fuel c r err).calls = c + fuel
  | fuel + 1, c, r, err, _, herr => by
    cases h : (ex c).2 with
    | none =>
      rw [retryGo_succ_none ex fuel c r err h] at herr
      exact absurd rfl herr
    | some e =>
      rw [retryGo_succ_some ex fuel c r err e h] at herr ⊢
      cases fuel with
      | zero => rw [retryGo_zero]
      | succ fuel1 =>
        rw [retryGo_error_calls ex (fuel1 + 1) (c + 1) (ex c).1 (some e)
          (by omega) herr]
        omega

theorem retryGo_error_last (ex : Nat → ExecResults × Option Err) :
    ∀ (fuel c : Nat) (r : ExecResults) (err : Option Err) (e : Err), 1 ≤ fuel →
      (retryGo ex fuel c r err).error = some e →
      (ex ((retryGo ex fuel c r err).calls - 1)).2 = some e
  | fuel + 1, c, r, err, e, _, herr => by
    cases h : (ex c).2 with
    | none =>
      rw [retryGo_succ_none ex fuel c r err h] at herr
      exact absurd herr (by simp)
    | some e2 =>
      rw [retryGo_succ_some ex fuel c r err e2 h] at herr ⊢
      cases fuel with
      | zero =>
        rw [retryGo_zero] at herr ⊢
        simp only at herr ⊢
        have : e2 = e := by injection herr
        subst this
        simpa using h
      | succ fuel1 =>
        exact retryGo_error_last ex (fuel1 + 1) (c + 1) (ex c).1 (some e2) e
          (by omega) herr

/-- The returned error of `executeWithRetry` is the error of its last
`Exec` attempt. -/
theorem executeWithRetry_error_last [Inhabited ExecResults]
    (n : Node State PrepResult ExecResults Err W) (p : PrepResult) (e : Err)
    (he : (n.executeWithRetry p).error = some e) :
    (n.node.Exec p ((n.executeWithRetry p).calls - 1)).2 = some e := by
  rw [Node.executeWithRetry] at he ⊢
  cases hf : (n.maxRetries + 1).toNat with
  | zero =>
    rw [hf, retryGo_zero] at he
    exact absurd he (by simp)
  | succ fuel1 =>
    rw [hf] at he
    exact retryGo_error_last _ (fuel1 + 1) 0 default none e (by omega) he

/-- A helper: the first loop iteration always calls `Exec`, so with any
positive fuel at least `c + 1` calls are made. -/
theorem retryGo_calls_pos (ex : Nat → ExecResults × Option Err)
    (fuel c : Nat) (r : ExecResults) (err : Option Err) :
    c + 1 ≤ (retryGo ex (fuel + 1) c r err).calls := by
  cases h : (ex c).2 with
  | none =>
    rw [retryGo_succ_none ex fuel c r err h]
  | some e =>
    rw [retryGo_succ_some ex fuel c r err e h]
    have := retryGo_calls_ge ex fuel (c + 1) (ex c).1 (some e)
    omega

/-- C3: when `Prep` returns an empty batch, `Run` short-circuits: the
result is exactly one `Post` call on the empty prep batch and an empty
results slice, whatever `Exec` and `ExecFallback` are (they are never
invoked: replacing them does not change the run), and the node returns
whatever that `Post` call returns. -/
theorem run_empty_prep [Inhabited ExecResults]
    (n : Node State PrepResult ExecResults Err W) (state s1 : State)
    (exec2 : PrepResult → Nat → ExecResults × Option Err)
    (fb2 : Err → ExecResults) (sched : List (Nat × PrepResult))
    (hp : n.node.Prep state = ([], s1)) :
    n.Run state = n.node.Post s1 [] [] ∧
    n.runWith sched state = n.node.Post s1 [] [] ∧
    Node.runWith
      { n with node := { n.node with Exec := exec2, ExecFallback := fb2 } }
      sched state = n.node.Post s1 [] [] := by
  refine ⟨?_, ?_, ?_⟩ <;> simp [Node.Run, Node.runWith, hp]

/-- Witness for C3 at a concrete processor whose `Prep` is empty. -/
theorem run_empty_prep_witness :
    Node.Run emptyNode 7 = emptyNode.node.Post 8 [] [] ∧
    Node.runWith emptyNode [(0, 3)] 7 = emptyNode.node.Post 8 [] [] ∧
    Node.runWith
      { emptyNode with node :=
        { emptyNode.node with
            Exec := fun p _ => (p, (none : Option Unit))
            ExecFallback := fun _ => 7 } }
      [(0, 3)] 7 = emptyNode.node.Post 8 [] [] :=
  run_empty_prep emptyNode 7 8 (fun p _ => (p, (none : Option Unit)))
    (fun _ => 7) [(0, 3)] rfl

/-- C4: a worker count below 1 is clamped to 1 at construction and by
`SetMaxRoutines`; at run time the effective worker count for a batch of
length `nn` is `min (workers, nn)`, which is at least 1 whenever the
stored count and the batch length are. -/
theorem worker_clamp (basenode : BaseNode State PrepResult ExecResults Err)
    (mr w r : Int) (nd : Node State PrepResult ExecResults Err W) (nn : Nat)
    (hr : 1 ≤ nd.routines) (hn : 1 ≤ nn) :
    ((createNode basenode mr w : Node State PrepResult ExecResults Err W).routines
        = if w < 1 then 1 else w) ∧
    1 ≤ (createNode basenode mr w : Node State PrepResult ExecResults Err W).routines ∧
    ((nd.SetMaxRoutines r).routines = if r < 1 then 1 else r) ∧
    1 ≤ (nd.SetMaxRoutines r).routines ∧
    effectiveWorkers nd.routines nn = min nd.routines (nn : Int) ∧
    1 ≤ effectiveWorkers nd.routines nn := by
  refine ⟨rfl, ?_, rfl, ?_, ?_, ?_⟩ <;>
    simp only [createNode, Node.SetMaxRoutines, effectiveWorkers] <;>
    split <;> omega

/-- Witness for C4 at concrete negative worker counts. -/
theorem worker_clamp_witness :
    ((createNode exBase 5 (-3) : Node Nat Nat Nat Unit Unit).routines
        = if (-3 : Int) < 1 then 1 else (-3 : Int)) ∧
    1 ≤ (createNode exBase 5 (-3) : Node Nat Nat Nat Unit Unit).routines ∧
    ((exNode.SetMaxRoutines (-2)).routines = if (-2 : Int) < 1 then 1 else (-2 : Int)) ∧
    1 ≤ (exNode.SetMaxRoutines (-2)).routines ∧
    effectiveWorkers exNode.routines 2 = min exNode.routines (2 : Int) ∧
    1 ≤ effectiveWorkers exNode.routines 2 :=
  worker_clamp exBase 5 (-3) (-2) exNode 2 (by decide) (by decide)

/-- C8: running a flow whose start stage is nil returns `ActionFailure`
with the state untouched, for every stage system (so no processor
operation is invoked) and every flow-level table. -/
theorem flow_null_start (sys : StageSys State) (g : Action → Option Nat)
    (state : State) (fuel : Nat) :
    Flow.Run sys { startNode := none, successors := g } state fuel
      = some (ActionFailure, state) := rfl

/-- Witness for C8 at a concrete stage system and state. -/
theorem flow_null_start_witness :
    Flow.Run exSys { startNode := none, successors := fun _ => none } 5 3
      = some (ActionFailure, 5) :=
  flow_null_start exSys (fun _ => none) 5 3

/-- C9: `AddSuccessor` with no action stores the edge under
`ActionDefault` on a node and under `ActionSuccess` on a flow; with an
explicit action the edge lands at that action, overwriting any existing
entry (the prior tables of `n` and `f` are arbitrary). -/
theorem add_successor_defaults (n : Node State PrepResult ExecResults Err W)
    (f : Flow W) (w : W) (a : Action) :
    (n.AddSuccessor (some w) []).GetSuccessor ActionDefault = some w ∧
    (n.AddSuccessor (some w) [a]).GetSuccessor a = some w ∧
    (f.AddSuccessor (some w) []).GetSuccessor ActionSuccess = some w ∧
    (f.AddSuccessor (some w) [a]).GetSuccessor a = some w := by
  refine ⟨?_, ?_, ?_, ?_⟩ <;>
    simp [Node.AddSuccessor, Node.GetSuccessor, Flow.AddSuccessor, Flow.GetSuccessor]

/-- Witness for C9 on a concrete node, flow and user-defined action. -/
theorem add_successor_defaults_witness :
    (exNode.AddSuccessor (some ()) []).GetSuccessor ActionDefault = some () ∧
    (exNode.AddSuccessor (some ()) ["jump"]).GetSuccessor "jump" = some () ∧
    ((NewFlow (some ())).AddSuccessor (some ()) []).GetSuccessor ActionSuccess = some () ∧
    ((NewFlow (some ())).AddSuccessor (some ()) ["jump"]).GetSuccessor "jump" = some () :=
  add_successor_defaults exNode (NewFlow (some ())) () "jump"

/-- C2 counterexample: with `maxRetries = 1` and an `Exec` that fails
once then succeeds, `Exec` is called `maxRetries + 1 = 2` times yet no
fallback happens (the returned error is `none`), so the invocation count
equals `maxRetries + 1` without `ExecFallback` being called: the claimed
"exactly when" equivalence is false. -/
theorem retry_count_fallback_counterexample :
    ¬ (((Node.executeWithRetry cexNode 5).calls : Int) = cexNode.maxRetries + 1 ↔
      (Node.executeWithRetry cexNode 5).error ≠ none) := by decide

/-- C2 (amended): for `maxRetries ≥ 0`, `Exec` is invoked between 1 and
`maxRetries + 1` times; the count is 1 when the first attempt succeeds;
if `ExecFallback` is triggered (the returned error is non-nil) the count
is exactly `maxRetries + 1`; and fallback is triggered iff every one of
the `maxRetries + 1` attempts fails. -/
theorem retry_attempt_bounds [Inhabited ExecResults]
    (n : Node State PrepResult ExecResults Err W) (input : PrepResult)
    (hmr : 0 ≤ n.maxRetries) :
    (1 ≤ (n.executeWithRetry input).calls ∧
      ((n.executeWithRetry input).calls : Int) ≤ n.maxRetries + 1) ∧
    ((n.node.Exec input 0).2 = none → (n.executeWithRetry input).calls = 1) ∧
    ((n.executeWithRetry input).error ≠ none →
      ((n.executeWithRetry input).calls : Int) = n.maxRetries + 1) ∧
    ((n.executeWithRetry input).error ≠ none ↔
      ∀ i : Nat, (i : Int) < n.maxRetries + 1 → (n.node.Exec input i).2 ≠ none) := by
  obtain ⟨f1, hf1⟩ : ∃ f1, (n.maxRetries + 1).toNat = f1 + 1 :=
    ⟨(n.maxRetries + 1).toNat - 1, by omega⟩
  simp only [Node.executeWithRetry, hf1]
  refine ⟨⟨?_, ?_⟩, ?_, ?_, ?_⟩
  · have := retryGo_calls_pos (fun i => n.node.Exec input i) f1 0 default none
    omega
  · have := retryGo_calls_le (fun i => n.node.Exec input i) (f1 + 1) 0 default none
    omega
  · intro h0
    have := retryGo_calls_one (fun i => n.node.Exec input i) f1 0 default none h0
    omega
  · intro herr
    have := retryGo_error_calls (fun i => n.node.Exec input i) (f1 + 1) 0 default none
      (by omega) herr
    omega
  · rw [retryGo_error_iff (fun i => n.node.Exec input i) (f1 + 1) 0 default none (by omega)]
    constructor
    · intro hall i hi
      exact hall i (by omega) (by omega)
    · intro hall i h0 hi
      exact hall i (by omega)

/-- Witness for the amended C2 at a processor whose `Exec` always fails:
3 calls are made with `maxRetries = 2` and the fallback is triggered. -/
theorem retry_attempt_bounds_witness :
    (1 ≤ (Node.executeWithRetry failNode 5).calls ∧
      ((Node.executeWithRetry failNode 5).calls : Int) ≤ failNode.maxRetries + 1) ∧
    ((failNode.node.Exec 5 0).2 = none → (Node.executeWithRetry failNode 5).calls = 1) ∧
    ((Node.executeWithRetry failNode 5).error ≠ none →
      ((Node.executeWithRetry failNode 5).calls : Int) = failNode.maxRetries + 1) ∧
    ((Node.executeWithRetry failNode 5).error ≠ none ↔
      ∀ i : Nat, (i : Int) < failNode.maxRetries + 1 → (failNode.node.Exec 5 i).2 ≠ none) :=
  retry_attempt_bounds failNode 5 (by decide)

/-- C1: for a non-empty prep batch, `Post` receives a results slice of
the same length as the batch, index-aligned with it regardless of the
completion schedule of the workers: slot `i` holds the successful
`Exec` output for item `i`, or `ExecFallback` applied to the error of
the last `Exec` attempt on item `i`. -/
theorem run_results_index_aligned [Inhabited ExecResults]
    (n : Node State PrepResult ExecResults Err W) (state : State)
    (prep : List PrepResult) (s1 : State) (sched : List (Nat × PrepResult))
    (hp : n.node.Prep state = (prep, s1))
    (hsched : sched.Perm (enumItems prep))
    (hne : prep ≠ []) :
    ∃ results : List ExecResults,
      n.runWith sched state = n.node.Post s1 prep results ∧
      results.length = prep.length ∧
      ∀ (i : Nat) (hi : i < prep.length),
        ((n.executeWithRetry prep[i]).error = none ∧
          results[i]? = some (n.executeWithRetry prep[i]).result) ∨
        ∃ e, (n.executeWithRetry prep[i]).error = some e ∧
          (n.node.Exec prep[i] ((n.executeWithRetry prep[i]).calls - 1)).2 = some e ∧
          results[i]? = some (n.node.ExecFallback e) := by
  have hlen : ¬ prep.length = 0 := fun h => hne (List.length_eq_zero.mp h)
  have hm1 := writeSlots_perm (fun p => slotOutcome n p) prep (enumItems prep)
    default (List.Perm.refl _)
  have hm2 := writeSlots_perm (fun p => slotOutcome n p) prep sched default hsched
  refine ⟨prep.map (fun p => slotOutcome n p), ?_, List.length_map prep _, ?_⟩
  · simp only [Node.runWith, hp]
    rw [if_neg hlen]
    simp only [hm1, hm2, ite_self]
  · intro i hi
    simp only [List.getElem?_map, List.getElem?_eq_getElem hi, Option.map_some']
    cases he : (n.executeWithRetry prep[i]).error with
    | none =>
      left
      exact ⟨rfl, by simp [slotOutcome, he]⟩
    | some e =>
      right
      exact ⟨e, rfl, executeWithRetry_error_last n _ e he, by simp [slotOutcome, he]⟩

/-- Witness for C1 at a two-item batch completed in reversed order. -/
theorem run_results_index_aligned_witness :
    ∃ results : List Nat,
      Node.runWith exNode [(1, 20), (0, 10)] 0 = exNode.node.Post 0 [10, 20] results ∧
      results.length = ([10, 20] : List Nat).length ∧
      ∀ (i : Nat) (hi : i < ([10, 20] : List Nat).length),
        ((Node.executeWithRetry exNode ([10, 20] : List Nat)[i]).error = none ∧
          results[i]? = some (Node.executeWithRetry exNode ([10, 20] : List Nat)[i]).result) ∨
        ∃ e, (Node.executeWithRetry exNode ([10, 20] : List Nat)[i]).error = some e ∧
          (exNode.node.Exec ([10, 20] : List Nat)[i]
            ((Node.executeWithRetry exNode ([10, 20] : List Nat)[i]).calls - 1)).2 = some e ∧
          results[i]? = some (exNode.node.ExecFallback e) :=
  run_results_index_aligned exNode 0 [10, 20] 0 [(1, 20), (0, 10)] rfl
    (by decide) (by decide)

/-- The per-item slot value does not depend on the stored worker count. -/
theorem slotOutcome_routines [Inhabited ExecResults]
    (n : Node State PrepResult ExecResults Err W) (w : Int) (p : PrepResult) :
    slotOutcome { n with routines := w } p = slotOutcome n p := rfl

/-- C5: with the attempt-indexed (hence schedule-independent, pure per
item) `Exec` of the model, a run over a fixed prep batch returns the same
`Post` arguments and result for every worker count at least 1 and every
completion schedule; in particular the single-worker sequential branch
(`w = 1`, index order) and the multi-worker pooled branch coincide. -/
theorem run_worker_count_equiv [Inhabited ExecResults]
    (n : Node State PrepResult ExecResults Err W) (state : State)
    (prep : List PrepResult) (s1 : State) (w1 w2 : Int)
    (sched1 sched2 : List (Nat × PrepResult))
    (hp : n.node.Prep state = (prep, s1))
    (hw1 : 1 ≤ w1) (hw2 : 1 ≤ w2)
    (hs1 : sched1.Perm (enumItems prep))
    (hs2 : sched2.Perm (enumItems prep)) :
    Node.runWith { n with routines := w1 } sched1 state
      = Node.runWith { n with routines := w2 } sched2 state := by
  by_cases h0 : prep.length = 0
  · simp [Node.runWith, hp, h0]
  · have hm1 := writeSlots_perm (fun p => slotOutcome n p) prep sched1 default hs1
    have hm2 := writeSlots_perm (fun p => slotOutcome n p) prep sched2 default hs2
    have hme := writeSlots_perm (fun p => slotOutcome n p) prep (enumItems prep)
      default (List.Perm.refl _)
    simp only [Node.runWith, hp, slotOutcome_routines]
    rw [if_neg h0, if_neg h0]
    simp only [hm1, hm2, hme, ite_self]

/-- Witness for C5: one worker in index order versus two workers
completing in reversed order. -/
theorem run_worker_count_equiv_witness :
    Node.runWith { exNode with routines := 1 } (enumItems [10, 20]) 0
      = Node.runWith { exNode with routines := 2 } [(1, 20), (0, 10)] 0 :=
  run_worker_count_equiv exNode 0 [10, 20] 0 1 2 (enumItems [10, 20])
    [(1, 20), (0, 10)] rfl (by decide) (by decide) (List.Perm.refl _) (by decide)

/-- C10: `createNode` and `SetMaxRetries` store a negative `maxRetries`
unclamped; with a negative `maxRetries` the retry loop body runs zero
times, so `executeWithRetry` returns the zero value with a nil error and
zero `Exec` calls (hence no fallback either), and every slot of the
results slice passed to `Post` is the zero value of `ExecResults`. -/
theorem negative_retries_zero_results [Inhabited ExecResults]
    (basenode : BaseNode State PrepResult ExecResults Err) (mr w r : Int)
    (nd : Node State PrepResult ExecResults Err W) (input : PrepResult)
    (state s1 : State) (prep : List PrepResult) (sched : List (Nat × PrepResult))
    (hmr : nd.maxRetries < 0)
    (hp : nd.node.Prep state = (prep, s1))
    (hsched : sched.Perm (enumItems prep)) :
    ((createNode basenode mr w : Node State PrepResult ExecResults Err W).maxRetries = mr) ∧
    ((nd.SetMaxRetries r).maxRetries = r) ∧
    nd.executeWithRetry input = ⟨default, none, 0⟩ ∧
    nd.runWith sched state = nd.node.Post s1 prep (List.replicate prep.length default) := by
  have hexec : ∀ p : PrepResult, nd.executeWithRetry p = ⟨default, none, 0⟩ := by
    intro p
    have h0 : (nd.maxRetries + 1).toNat = 0 := by omega
    rw [Node.executeWithRetry, h0, retryGo_zero]
  have hslot : ∀ p : PrepResult, slotOutcome nd p = default := by
    intro p
    simp [slotOutcome, hexec p]
  refine ⟨rfl, rfl, hexec input, ?_⟩
  by_cases h0 : prep.length = 0
  · have hpe : prep = [] := List.length_eq_zero.mp h0
    subst hpe
    simp [Node.runWith, hp]
  · have hmap : prep.map (fun p => slotOutcome nd p)
        = List.replicate prep.length default := by
      calc prep.map (fun p => slotOutcome nd p)
          = prep.map (fun _ => (default : ExecResults)) := by simp only [hslot]
        _ = List.replicate prep.length default := List.map_const' prep default
    have hm1 := writeSlots_perm (fun p => slotOutcome nd p) prep sched default hsched
    have hme := writeSlots_perm (fun p => slotOutcome nd p) prep (enumItems prep)
      default (List.Perm.refl _)
    simp only [Node.runWith, hp]
    rw [if_neg h0]
    simp only [hm1, hme, hmap, ite_self]

/-- Witness for C10 at `maxRetries = -1` over a two-item batch. -/
theorem negative_retries_zero_results_witness :
    ((createNode exBase (-4) 3 : Node Nat Nat Nat Unit Unit).maxRetries = -4) ∧
    ((negNode.SetMaxRetries (-7)).maxRetries = -7) ∧
    Node.executeWithRetry negNode 5 = ⟨0, none, 0⟩ ∧
    Node.runWith negNode (enumItems [10, 20]) 0
      = negNode.node.Post 0 [10, 20] (List.replicate 2 0) :=
  negative_retries_zero_results exBase (-4) 3 (-7) negNode 5 0 0 [10, 20]
    (enumItems [10, 20]) (by decide) rfl (List.Perm.refl _)

/-- C6: after the current stage returns action `a`, the next stage is the
one in the current stage's own table when present (whatever the flow's
table says at `a` or elsewhere); on a miss the flow's table at `a` is
used; when both miss the loop stops and returns `a` — no lookup at
`ActionDefault` happens (the tables are arbitrary at every other
action). -/
theorem flow_edge_resolution (sys : StageSys State) (f : Flow Nat)
    (fuel cur : Nat) (s s' : State) (a : Action)
    (hrun : sys.runs cur s = (a, s')) :
    (∀ n1 : Nat, sys.succ cur a = some n1 →
      flowLoop sys f (fuel + 1) cur s = flowLoop sys f fuel n1 s') ∧
    (∀ n2 : Nat, sys.succ cur a = none → f.GetSuccessor a = some n2 →
      flowLoop sys f (fuel + 1) cur s = flowLoop sys f fuel n2 s') ∧
    (sys.succ cur a = none → f.GetSuccessor a = none →
      flowLoop sys f (fuel + 1) cur s = some (a, s')) := by
  refine ⟨?_, ?_, ?_⟩
  · intro n1 h1
    simp [flowLoop, hrun, h1]
  · intro n2 h1 h2
    simp [flowLoop, hrun, h1, h2]
  · intro h1 h2
    simp [flowLoop, hrun, h1, h2]

/-- Witness for C6: a stage-level edge wins over a flow-level edge for
the same action; the flow-level edge is used on a stage-level miss; an
action unresolved at both levels stops the loop even though `"default"`
edges are wired at both levels. -/
theorem flow_edge_resolution_witness :
    flowLoop dupSys dupFlow 4 0 10 = flowLoop dupSys dupFlow 3 1 11 ∧
    flowLoop dupSys fallFlow 4 1 10 = flowLoop dupSys fallFlow 3 0 20 ∧
    flowLoop exSys exFlow 4 1 10 = some ("stop", 20) :=
  ⟨(flow_edge_resolution dupSys dupFlow 3 0 10 11 "go" (by decide)).1 1 (by decide),
   (flow_edge_resolution dupSys fallFlow 3 1 10 20 "stop" (by decide)).2.1 0
     (by decide) (by decide),
   (flow_edge_resolution exSys exFlow 3 1 10 20 "stop" (by decide)).2.2
     (by decide) (by decide)⟩

/-- A traversal that reaches, after `k` transitions, a stage whose action
is unresolved at both levels, terminates with that action under any
surplus fuel. -/
theorem flowLoop_of_iter (sys : StageSys State) (f : Flow Nat) :
    ∀ (k m cur0 cur : Nat) (s0 s s' : State) (a : Action),
      flowIter sys f k cur0 s0 = some (cur, s) →
      sys.runs cur s = (a, s') →
      sys.succ cur a = none →
      f.GetSuccessor a = none →
      flowLoop sys f (k + 1 + m) cur0 s0 = some (a, s')
  | 0, m, cur0, cur, s0, s, s', a, hiter, hrun, h1, h2 => by
    simp only [flowIter, Option.some.injEq, Prod.mk.injEq] at hiter
    obtain ⟨h3, h4⟩ := hiter
    subst h3
    subst h4
    have harith : 0 + 1 + m = m + 1 := by omega
    rw [harith]
    simp [flowLoop, hrun, h1, h2]
  | k + 1, m, cur0, cur, s0, s, s', a, hiter, hrun, h1, h2 => by
    rcases hr0 : sys.runs cur0 s0 with ⟨a0, t0⟩
    cases h3 : sys.succ cur0 a0 with
    | some nxt =>
      simp only [flowIter, hr0, h3] at hiter
      have ih := flowLoop_of_iter sys f k m nxt cur t0 s s' a hiter hrun h1 h2
      have harith : k + 1 + 1 + m = (k + 1 + m) + 1 := by omega
      rw [harith]
      simp only [flowLoop, hr0, h3]
      exact ih
    | none =>
      cases h4 : f.GetSuccessor a0 with
      | some nxt =>
        simp only [flowIter, hr0, h3, h4] at hiter
        have ih := flowLoop_of_iter sys f k m nxt cur t0 s s' a hiter hrun h1 h2
        have harith : k + 1 + 1 + m = (k + 1 + m) + 1 := by omega
        rw [harith]
        simp only [flowLoop, hr0, h3, h4]
        exact ih
      | none =>
        simp only [flowIter, hr0, h3, h4] at hiter
        exact absurd hiter (by simp)

/-- C7: a flow whose traversal reaches, after `k` transitions from the
start stage, a stage returning an action with no resolvable successor
(neither in the stage's table nor in the flow's) terminates for every
surplus fuel `m` and returns exactly that action (with that stage's
output state). -/
theorem flow_run_unresolved_terminates (sys : StageSys State) (f : Flow Nat)
    (k m cur0 cur : Nat) (s0 s s' : State) (a : Action)
    (hstart : f.startNode = some cur0)
    (hiter : flowIter sys f k cur0 s0 = some (cur, s))
    (hrun : sys.runs cur s = (a, s'))
    (h1 : sys.succ cur a = none)
    (h2 : f.GetSuccessor a = none) :
    Flow.Run sys f s0 (k + 1 + m) = some (a, s') := by
  simp only [Flow.Run, hstart]
  exact flowLoop_of_iter sys f k m cur0 cur s0 s s' a hiter hrun h1 h2

/-- Witness for C7: the two-stage system terminates at the unresolved
`"stop"` action after one transition, with surplus fuel 2. -/
theorem flow_run_unresolved_terminates_witness :
    Flow.Run exSys exFlow 3 (1 + 1 + 2) = some ("stop", 8) :=
  flow_run_unresolved_terminates exSys exFlow 1 2 0 1 3 4 8 "stop" rfl
    (by decide) (by decide) (by decide) (by decide)

end Core


